import Mathlib

/-!
Shallow embedding of the MacQ C core engine (`src/c_engine/src/macq.c`,
`src/c_engine/include/macq.h`) and proofs about its state-vector kernels.

Modelling conventions:
* C `double` and `double complex` are modelled by `ℝ` and `ℂ` (exact reals,
  so floating-point rounding is out of scope; all spec tolerances of the form
  "within 1e-9" are settled by exact equalities, which imply them).
* A `QuantumState` handle is a value; the C `NULL` handle is modelled by
  `Option` where a claim needs it.  `int` qubit indices are modelled by `ℕ`;
  the C validity check `qubit >= 0 && qubit < num_qubits` becomes `qubit < n`
  (a negative C index is rejected there exactly as every other invalid index).
* Every fallible C kernel returns its `MacQError` code and mutates the state
  through a pointer; it is embedded as a function returning the pair
  `MacQError × QuantumState n` of the returned code and the post-call state,
  so "performs no mutation" is the statement that the second component equals
  the argument.
* The block/stride loops of `macq.c` touch each amplitude pair exactly once,
  reading both old values before writing; each loop is embedded as the
  pointwise function it computes on the buffer (see the comments at each
  kernel for the line-by-line correspondence).
-/

namespace MacQ

open Complex
open scoped BigOperators

/-- Error codes of `macq.h` lines 71-78. -/
inductive MacQError : Type where
  | MACQ_SUCCESS : MacQError
  | MACQ_ERROR_INVALID_QUBITS : MacQError
  | MACQ_ERROR_OUT_OF_MEMORY : MacQError
  | MACQ_ERROR_INVALID_GATE : MacQError
  | MACQ_ERROR_INVALID_INDEX : MacQError
  | MACQ_ERROR_NULL_POINTER : MacQError
deriving DecidableEq, Repr

export MacQError (MACQ_SUCCESS MACQ_ERROR_INVALID_QUBITS MACQ_ERROR_OUT_OF_MEMORY
  MACQ_ERROR_INVALID_GATE MACQ_ERROR_INVALID_INDEX MACQ_ERROR_NULL_POINTER)

/-- The `QuantumState` struct of `macq.h` lines 29-36: `num_qubits` is the type
index `n`, `vector_size = 2^n` is the length of the amplitude buffer
(`state_vector`), and `norm` is the cached norm field.  The allocation details
(`use_accelerate`, `_aligned_buffer`) carry no semantic content. -/
@[ext]
structure QuantumState (n : ℕ) : Type where
  amplitudes : Fin (2 ^ n) → ℂ
  norm : ℝ

/-- The summand `creal(amp)*creal(amp) + cimag(amp)*cimag(amp)` used by
`qstate_norm` (macq.c line 141) and `qstate_measure` (lines 528-529). -/
def absSq (z : ℂ) : ℝ := z.re * z.re + z.im * z.im

/-- The accumulated `norm_squared` of `qstate_norm`, macq.c lines 138-142. -/
def normSquared {n : ℕ} (ψ : Fin (2 ^ n) → ℂ) : ℝ := ∑ i, absSq (ψ i)

/-- `qstate_norm`, macq.c lines 134-145 (the `NULL` branch returning `-1.0` is
unreachable for a value argument and is not modelled). -/
noncomputable def qstate_norm {n : ℕ} (qs : QuantumState n) : ℝ :=
  Real.sqrt (normSquared qs.amplitudes)

/-- `qstate_create`, macq.c lines 39-78: `none` models the `NULL` return for a
qubit count outside `1..30` (`MAX_QUBITS`); allocation failure is not modelled.
On success the buffer is zeroed with amplitude `1` at index `0` and the cached
norm is set to `1.0` (lines 71-75). -/
def qstate_create (n : ℕ) : Option (QuantumState n) :=
  if 1 ≤ n ∧ n ≤ 30 then
    some { amplitudes := fun i => if i.val = 0 then 1 else 0, norm := 1 }
  else none

/-- `qstate_clone`, macq.c lines 89-100: a deep copy of the buffer together
with the cached norm. -/
def qstate_clone {n : ℕ} (qs : QuantumState n) : QuantumState n :=
  { amplitudes := qs.amplitudes, norm := qs.norm }

/-- The index-building loop of `qstate_init_basis` (macq.c lines 117-125):
bit `i` of the index is set when character `i` is `'1'`; the first character
other than `'0'`/`'1'` aborts with the invalid-index error (`none`). -/
def bitstringIndex : List Char → Option ℕ
  | [] => some 0
  | c :: rest =>
    if c = '1' then (bitstringIndex rest).map (fun v => 1 + 2 * v)
    else if c = '0' then (bitstringIndex rest).map (fun v => 2 * v)
    else none

/-- `qstate_init_basis`, macq.c lines 102-132.  The length check (lines
106-111) precedes the `memset` that clears the buffer (line 114), which in
turn precedes the character validation inside the index loop (lines 117-125);
an invalid character therefore returns with the buffer already cleared. -/
def qstate_init_basis {n : ℕ} (qs : QuantumState n) (bitstring : List Char) :
    MacQError × QuantumState n :=
  if bitstring.length ≠ n then (MACQ_ERROR_INVALID_INDEX, qs)
  else
    let cleared : QuantumState n := { amplitudes := fun _ => 0, norm := qs.norm }
    match bitstringIndex bitstring with
    | none => (MACQ_ERROR_INVALID_INDEX, cleared)
    | some index =>
      (MACQ_SUCCESS,
        { amplitudes := fun i => if i.val = index then 1 else 0, norm := 1 })

/-- `qstate_normalize`, macq.c lines 147-163: fails with `MACQ_ERROR_INVALID_GATE`
and no mutation when the norm is below `1e-10`, otherwise divides every
amplitude by the norm and resets the cached norm to `1.0`. -/
noncomputable def qstate_normalize {n : ℕ} (qs : QuantumState n) :
    MacQError × QuantumState n :=
  let norm := qstate_norm qs
  if norm < 1e-10 then (MACQ_ERROR_INVALID_GATE, qs)
  else
    (MACQ_SUCCESS,
      { amplitudes := fun i => qs.amplitudes i / (norm : ℂ), norm := 1 })

/-- XOR of a buffer index with a mask below `2 ^ n` stays inside the buffer. -/
def flipMask {n : ℕ} (i : Fin (2 ^ n)) (mask : ℕ) (hm : mask < 2 ^ n) :
    Fin (2 ^ n) :=
  ⟨i.val ^^^ mask, Nat.xor_lt_two_pow i.isLt hm⟩

theorem two_pow_lt {n t : ℕ} (h : t < n) : 2 ^ t < 2 ^ n :=
  Nat.pow_lt_pow_right (by norm_num) h

/-- The partner index `idx0 + block_size` / `idx0` of the single-qubit block
loops: the index with bit `t` flipped. -/
def flipBit {n : ℕ} (i : Fin (2 ^ n)) (t : ℕ) (h : t < n) : Fin (2 ^ n) :=
  flipMask i (2 ^ t) (two_pow_lt h)

@[simp]
theorem flipMask_flipMask {n : ℕ} (i : Fin (2 ^ n)) (mask : ℕ) (hm : mask < 2 ^ n) :
    flipMask (flipMask i mask hm) mask hm = i := by
  apply Fin.ext
  simp [flipMask, Nat.xor_assoc]

@[simp]
theorem flipBit_flipBit {n : ℕ} (i : Fin (2 ^ n)) (t : ℕ) (h : t < n) :
    flipBit (flipBit i t h) t h = i :=
  flipMask_flipMask i (2 ^ t) (two_pow_lt h)

@[simp]
theorem testBit_flipBit {n : ℕ} (i : Fin (2 ^ n)) (t : ℕ) (h : t < n) :
    (flipBit i t h).val.testBit t = ! i.val.testBit t := by
  simp [flipBit, flipMask, Nat.testBit_two_pow_self]

theorem testBit_flipBit_ne {n : ℕ} (i : Fin (2 ^ n)) (t c : ℕ) (h : t < n)
    (hc : c ≠ t) : (flipBit i t h).val.testBit c = i.val.testBit c := by
  simp [flipBit, flipMask, Nat.testBit_two_pow_of_ne (fun hh => hc hh.symm)]

/-!
### Single-qubit gate kernels

Each kernel of macq.c lines 169-401 first runs `is_valid_qubit_index`
(lines 21-23) and then walks the buffer in blocks of size `2 ^ target` with
stride `2 ^ (target + 1)`, visiting every index pair `(idx0, idx1)` with
`idx1 = idx0 + 2 ^ target` (bit `target` clear in `idx0`, set in `idx1`)
exactly once and overwriting both entries from the two old values.  The
resulting buffer is the pointwise function written below: at an index with
bit `target` set the code stored the new `idx1` entry, otherwise the new
`idx0` entry, and the partner old value is read through `flipBit`.
-/

/-- `qstate_apply_x`, macq.c lines 169-192: swaps the two entries of every
pair. -/
def qstate_apply_x {n : ℕ} (qs : QuantumState n) (target : ℕ) :
    MacQError × QuantumState n :=
  if h : target < n then
    (MACQ_SUCCESS,
      { amplitudes := fun i => qs.amplitudes (flipBit i target h)
        norm := qs.norm })
  else (MACQ_ERROR_INVALID_INDEX, qs)

/-- `qstate_apply_y`, macq.c lines 194-219: `idx0 ← -i·a1`, `idx1 ← i·a0`. -/
noncomputable def qstate_apply_y {n : ℕ} (qs : QuantumState n) (target : ℕ) :
    MacQError × QuantumState n :=
  if h : target < n then
    (MACQ_SUCCESS,
      { amplitudes := fun i =>
          if i.val.testBit target then I * qs.amplitudes (flipBit i target h)
          else -I * qs.amplitudes (flipBit i target h)
        norm := qs.norm })
  else (MACQ_ERROR_INVALID_INDEX, qs)

/-- `qstate_apply_z`, macq.c lines 221-240: negates the `idx1` entry of every
pair and leaves the `idx0` entry untouched. -/
noncomputable def qstate_apply_z {n : ℕ} (qs : QuantumState n) (target : ℕ) :
    MacQError × QuantumState n :=
  if _h : target < n then
    (MACQ_SUCCESS,
      { amplitudes := fun i =>
          if i.val.testBit target then -qs.amplitudes i else qs.amplitudes i
        norm := qs.norm })
  else (MACQ_ERROR_INVALID_INDEX, qs)

/-- The constant `inv_sqrt2 = 1.0 / sqrt(2.0)` of `qstate_apply_h`,
macq.c line 247. -/
noncomputable def inv_sqrt2 : ℝ := 1 / Real.sqrt 2

/-- `qstate_apply_h`, macq.c lines 242-268: `idx0 ← (a0+a1)/√2`,
`idx1 ← (a0−a1)/√2`. -/
noncomputable def qstate_apply_h {n : ℕ} (qs : QuantumState n) (target : ℕ) :
    MacQError × QuantumState n :=
  if h : target < n then
    (MACQ_SUCCESS,
      { amplitudes := fun i =>
          if i.val.testBit target then
            (inv_sqrt2 : ℂ) * (qs.amplitudes (flipBit i target h) - qs.amplitudes i)
          else
            (inv_sqrt2 : ℂ) * (qs.amplitudes i + qs.amplitudes (flipBit i target h))
        norm := qs.norm })
  else (MACQ_ERROR_INVALID_INDEX, qs)

/-- `qstate_apply_s`, macq.c lines 270-289: multiplies the `idx1` entry by `i`. -/
noncomputable def qstate_apply_s {n : ℕ} (qs : QuantumState n) (target : ℕ) :
    MacQError × QuantumState n :=
  if _h : target < n then
    (MACQ_SUCCESS,
      { amplitudes := fun i =>
          if i.val.testBit target then qs.amplitudes i * I else qs.amplitudes i
        norm := qs.norm })
  else (MACQ_ERROR_INVALID_INDEX, qs)

/-- The constant `t_phase = cexp(I*M_PI/4.0)` of `qstate_apply_t`,
macq.c line 296. -/
noncomputable def t_phase : ℂ := Complex.exp (I * Real.pi / 4)

/-- `qstate_apply_t`, macq.c lines 291-310: multiplies the `idx1` entry by
`e^(iπ/4)`. -/
noncomputable def qstate_apply_t {n : ℕ} (qs : QuantumState n) (target : ℕ) :
    MacQError × QuantumState n :=
  if _h : target < n then
    (MACQ_SUCCESS,
      { amplitudes := fun i =>
          if i.val.testBit target then qs.amplitudes i * t_phase
          else qs.amplitudes i
        norm := qs.norm })
  else (MACQ_ERROR_INVALID_INDEX, qs)

/-- `qstate_apply_rx`, macq.c lines 316-345, with `cos_half = cos(θ/2)`,
`sin_half = sin(θ/2)`, `neg_i = -I`: `idx0 ← cos_half·a0 + neg_i·sin_half·a1`,
`idx1 ← neg_i·sin_half·a0 + cos_half·a1`. -/
noncomputable def qstate_apply_rx {n : ℕ} (qs : QuantumState n) (target : ℕ)
    (theta : ℝ) : MacQError × QuantumState n :=
  if h : target < n then
    let cos_half : ℝ := Real.cos (theta / 2)
    let sin_half : ℝ := Real.sin (theta / 2)
    let neg_i : ℂ := -I
    (MACQ_SUCCESS,
      { amplitudes := fun i =>
          if i.val.testBit target then
            neg_i * (sin_half : ℂ) * qs.amplitudes (flipBit i target h) +
              (cos_half : ℂ) * qs.amplitudes i
          else
            (cos_half : ℂ) * qs.amplitudes i +
              neg_i * (sin_half : ℂ) * qs.amplitudes (flipBit i target h)
        norm := qs.norm })
  else (MACQ_ERROR_INVALID_INDEX, qs)

/-- `qstate_apply_ry`, macq.c lines 347-375: `idx0 ← cos_half·a0 − sin_half·a1`,
`idx1 ← sin_half·a0 + cos_half·a1`. -/
noncomputable def qstate_apply_ry {n : ℕ} (qs : QuantumState n) (target : ℕ)
    (theta : ℝ) : MacQError × QuantumState n :=
  if h : target < n then
    let cos_half : ℝ := Real.cos (theta / 2)
    let sin_half : ℝ := Real.sin (theta / 2)
    (MACQ_SUCCESS,
      { amplitudes := fun i =>
          if i.val.testBit target then
            (sin_half : ℂ) * qs.amplitudes (flipBit i target h) +
              (cos_half : ℂ) * qs.amplitudes i
          else
            (cos_half : ℂ) * qs.amplitudes i -
              (sin_half : ℂ) * qs.amplitudes (flipBit i target h)
        norm := qs.norm })
  else (MACQ_ERROR_INVALID_INDEX, qs)

/-- `qstate_apply_rz`, macq.c lines 377-401, with
`phase_neg = cexp(-I*θ/2)`, `phase_pos = cexp(I*θ/2)`: `idx0 *= phase_neg`,
`idx1 *= phase_pos`. -/
noncomputable def qstate_apply_rz {n : ℕ} (qs : QuantumState n) (target : ℕ)
    (theta : ℝ) : MacQError × QuantumState n :=
  if _h : target < n then
    let phase_neg : ℂ := Complex.exp (-I * theta / 2)
    let phase_pos : ℂ := Complex.exp (I * theta / 2)
    (MACQ_SUCCESS,
      { amplitudes := fun i =>
          if i.val.testBit target then qs.amplitudes i * phase_pos
          else qs.amplitudes i * phase_neg
        norm := qs.norm })
  else (MACQ_ERROR_INVALID_INDEX, qs)

/-!
### Two- and three-qubit kernels

The CNOT (macq.c lines 419-429), SWAP (lines 463-476) and Toffoli (lines
497-508) loops share one pattern: for every index `i` satisfying a control
condition `C`, the partner `pair_idx = i ^^^ mask` is computed and the two
entries are swapped, guarded by `i < pair_idx` so that each unordered pair is
swapped exactly once.  Distinct loop iterations touch disjoint pairs, so the
final buffer value at `j` is the old value at `j ^^^ mask` exactly when the
swap guard fired for the pair of `j` — that is, when the loop index of that
pair (`j` or its partner `j ^^^ mask`, whichever satisfied the `<` guard)
satisfied `C` — and the old value at `j` otherwise.  `swapCond` is that
executed-swap condition. -/
def swapCond {n : ℕ} (C : ℕ → Bool) (mask : ℕ) (hm : mask < 2 ^ n)
    (j : Fin (2 ^ n)) : Prop :=
  (C j.val ∧ j.val < (flipMask j mask hm).val) ∨
    (C (flipMask j mask hm).val ∧ (flipMask j mask hm).val < j.val)

instance swapCondDecidable {n : ℕ} (C : ℕ → Bool) (mask : ℕ) (hm : mask < 2 ^ n)
    (j : Fin (2 ^ n)) : Decidable (swapCond C mask hm j) := by
  unfold swapCond
  infer_instance

/-- The buffer computed by a guarded pair-swap loop (see above). -/
def guardedPairSwap {n : ℕ} (C : ℕ → Bool) (mask : ℕ) (hm : mask < 2 ^ n)
    (ψ : Fin (2 ^ n) → ℂ) : Fin (2 ^ n) → ℂ :=
  fun j => if swapCond C mask hm j then ψ (flipMask j mask hm) else ψ j

/-- `qstate_apply_cnot`, macq.c lines 407-432: validates both indices, rejects
`control == target` with `MACQ_ERROR_INVALID_GATE` (lines 411-413), then swaps
each pair differing in bit `target` whose control bit is `1`. -/
def qstate_apply_cnot {n : ℕ} (qs : QuantumState n) (control target : ℕ) :
    MacQError × QuantumState n :=
  if h : control < n ∧ target < n then
    if control = target then (MACQ_ERROR_INVALID_GATE, qs)
    else
      (MACQ_SUCCESS,
        { amplitudes :=
            guardedPairSwap (fun i => i.testBit control) (2 ^ target)
              (two_pow_lt h.2) qs.amplitudes
          norm := qs.norm })
  else (MACQ_ERROR_INVALID_INDEX, qs)

/-- `qstate_apply_cz`, macq.c lines 434-450: validates both indices (no
duplicate check), then negates every entry whose control and target bits are
both `1`, in place. -/
noncomputable def qstate_apply_cz {n : ℕ} (qs : QuantumState n)
    (control target : ℕ) : MacQError × QuantumState n :=
  if _h : control < n ∧ target < n then
    (MACQ_SUCCESS,
      { amplitudes := fun i =>
          if i.val.testBit control ∧ i.val.testBit target then -qs.amplitudes i
          else qs.amplitudes i
        norm := qs.norm })
  else (MACQ_ERROR_INVALID_INDEX, qs)

/-- `qstate_apply_swap`, macq.c lines 452-479: validates both indices, returns
`MACQ_SUCCESS` without touching the buffer when `qubit1 == qubit2` (lines
456-458), else swaps each pair differing in exactly those two bits. -/
def qstate_apply_swap {n : ℕ} (qs : QuantumState n) (qubit1 qubit2 : ℕ) :
    MacQError × QuantumState n :=
  if h : qubit1 < n ∧ qubit2 < n then
    if qubit1 = qubit2 then (MACQ_SUCCESS, qs)
    else
      (MACQ_SUCCESS,
        { amplitudes :=
            guardedPairSwap (fun i => i.testBit qubit1 != i.testBit qubit2)
              (2 ^ qubit1 ^^^ 2 ^ qubit2)
              (Nat.xor_lt_two_pow (two_pow_lt h.1) (two_pow_lt h.2))
              qs.amplitudes
          norm := qs.norm })
  else (MACQ_ERROR_INVALID_INDEX, qs)

/-- `qstate_apply_toffoli`, macq.c lines 485-511: validates the three indices
(no distinctness check), then swaps each pair differing in bit `target` whose
two control bits are both `1`. -/
def qstate_apply_toffoli {n : ℕ} (qs : QuantumState n)
    (control1 control2 target : ℕ) : MacQError × QuantumState n :=
  if h : control1 < n ∧ control2 < n ∧ target < n then
    (MACQ_SUCCESS,
      { amplitudes :=
          guardedPairSwap (fun i => i.testBit control1 && i.testBit control2)
            (2 ^ target) (two_pow_lt h.2.2) qs.amplitudes
        norm := qs.norm })
  else (MACQ_ERROR_INVALID_INDEX, qs)

/-!
### Measurement and accessors
-/

/-- The `prob_0` accumulated by `qstate_measure`, macq.c lines 523-536. -/
def measure_prob_0 {n : ℕ} (qs : QuantumState n) (qubit : ℕ) : ℝ :=
  ∑ i, if i.val.testBit qubit then 0 else absSq (qs.amplitudes i)

/-- The `prob_1` accumulated by `qstate_measure`, macq.c lines 523-536. -/
def measure_prob_1 {n : ℕ} (qs : QuantumState n) (qubit : ℕ) : ℝ :=
  ∑ i, if i.val.testBit qubit then absSq (qs.amplitudes i) else 0

/-- The outcome selection of `qstate_measure`, macq.c lines 539-540, with the
uniform draw `rand_val = rand()/RAND_MAX ∈ [0,1]` taken as an input. -/
noncomputable def measure_result {n : ℕ} (qs : QuantumState n) (qubit : ℕ)
    (rand_val : ℝ) : ℤ :=
  if rand_val <
      measure_prob_0 qs qubit / (measure_prob_0 qs qubit + measure_prob_1 qs qubit)
  then 0 else 1

/-- The `norm_factor` of `qstate_measure`, macq.c line 543. -/
noncomputable def measure_norm_factor {n : ℕ} (qs : QuantumState n) (qubit : ℕ)
    (rand_val : ℝ) : ℝ :=
  if measure_result qs qubit rand_val = 0 then Real.sqrt (measure_prob_0 qs qubit)
  else Real.sqrt (measure_prob_1 qs qubit)

/-- `qstate_measure`, macq.c lines 517-554: on an invalid qubit index returns
the sentinel `-1` leaving the state untouched; otherwise selects the outcome
from the draw, zeroes every entry inconsistent with it and divides every
consistent entry by `norm_factor` (lines 544-551).  The division is performed
unconditionally — there is no guard against `norm_factor == 0`. -/
noncomputable def qstate_measure {n : ℕ} (qs : QuantumState n) (qubit : ℕ)
    (rand_val : ℝ) : ℤ × QuantumState n :=
  if _h : qubit < n then
    let result := measure_result qs qubit rand_val
    let norm_factor := measure_norm_factor qs qubit rand_val
    (result,
      { amplitudes := fun i =>
          if (result = 1 ∧ i.val.testBit qubit) ∨ (result = 0 ∧ ¬ i.val.testBit qubit)
          then qs.amplitudes i / (norm_factor : ℂ)
          else 0
        norm := qs.norm })
  else (-1, qs)

/-- `qstate_probability`, macq.c lines 556-572. -/
def qstate_probability {n : ℕ} (qs : QuantumState n) (qubit : ℕ) : ℝ :=
  if _h : qubit < n then measure_prob_1 qs qubit else -1.0

/-- `qstate_basis_probability`, macq.c lines 574-581. -/
def qstate_basis_probability {n : ℕ} (qs : QuantumState n) (basis_index : ℕ) : ℝ :=
  if h : basis_index < 2 ^ n then absSq (qs.amplitudes ⟨basis_index, h⟩) else -1.0

/-- `qstate_get_amplitude`, macq.c lines 587-592: a `NULL` handle (`none`) or
an out-of-range basis index returns `0.0`, not a `-1.0` sentinel. -/
def qstate_get_amplitude {n : ℕ} (qs : Option (QuantumState n))
    (basis_index : ℕ) : ℂ :=
  match qs with
  | none => 0
  | some qs => if h : basis_index < 2 ^ n then qs.amplitudes ⟨basis_index, h⟩ else 0

/-- `qstate_set_amplitude`, macq.c lines 594-601: writes one buffer entry; the
cached norm field is not updated. -/
def qstate_set_amplitude {n : ℕ} (qs : QuantumState n) (basis_index : ℕ)
    (amplitude : ℂ) : MacQError × QuantumState n :=
  if h : basis_index < 2 ^ n then
    (MACQ_SUCCESS,
      { amplitudes := Function.update qs.amplitudes ⟨basis_index, h⟩ amplitude
        norm := qs.norm })
  else (MACQ_ERROR_INVALID_INDEX, qs)

/-- Computational basis state fixture: amplitude `1` at index `b`, `0`
elsewhere, cached norm `1` (the state produced by a successful
`qstate_init_basis`). -/
def basisState (n : ℕ) (b : Fin (2 ^ n)) : QuantumState n :=
  { amplitudes := fun i => if i = b then 1 else 0, norm := 1 }

/-!
### Norm-preservation machinery
-/

theorem absSq_eq_normSq (z : ℂ) : absSq z = Complex.normSq z :=
  (Complex.normSq_apply z).symm

/-- Reindexing a sum over the indices with bit `t` set by flipping that bit. -/
theorem sum_filter_testBit_flip {n : ℕ} (t : ℕ) (h : t < n) (f : Fin (2 ^ n) → ℝ) :
    ∑ i ∈ Finset.univ.filter (fun i : Fin (2 ^ n) => i.val.testBit t = true), f i
      = ∑ i ∈ Finset.univ.filter (fun i : Fin (2 ^ n) => ¬ i.val.testBit t = true),
          f (flipBit i t h) := by
  refine Finset.sum_nbij' (fun a => flipBit a t h) (fun a => flipBit a t h)
    ?_ ?_ ?_ ?_ ?_
  · intro a ha
    simp only [Finset.mem_filter, Finset.mem_univ, true_and] at ha ⊢
    simp [ha]
  · intro a ha
    simp only [Finset.mem_filter, Finset.mem_univ, true_and] at ha ⊢
    simpa using ha
  · intro a _
    simp
  · intro a _
    simp
  · intro a _
    rw [flipBit_flipBit]

/-- Generic single-qubit norm preservation: if the `2 × 2` pair transform
`(a0, a1) ↦ (g0 a0 a1, g1 a0 a1)` preserves `|a0|² + |a1|²`, then the block
loop applying it at target bit `t` preserves the squared norm of the buffer. -/
theorem normSquared_pairUpdate {n : ℕ} (t : ℕ) (h : t < n) (ψ : Fin (2 ^ n) → ℂ)
    (g0 g1 : ℂ → ℂ → ℂ)
    (hg : ∀ a0 a1, Complex.normSq (g0 a0 a1) + Complex.normSq (g1 a0 a1)
        = Complex.normSq a0 + Complex.normSq a1) :
    normSquared (fun i => if i.val.testBit t
        then g1 (ψ (flipBit i t h)) (ψ i)
        else g0 (ψ i) (ψ (flipBit i t h)))
      = normSquared ψ := by
  classical
  unfold normSquared
  rw [← Finset.sum_filter_add_sum_filter_not Finset.univ
        (fun i : Fin (2  ^ n) => i.val.testBit t = true),
      ← Finset.sum_filter_add_sum_filter_not Finset.univ
        (fun i : Fin (2 ^ n) => i.val.testBit t = true) (fun i => absSq (ψ i)),
      sum_filter_testBit_flip t h, sum_filter_testBit_flip t h (fun i => absSq (ψ i))]
  rw [add_comm, ← Finset.sum_add_distrib,
      add_comm (∑ i ∈ _, absSq (ψ (flipBit i t h))), ← Finset.sum_add_distrib]
  apply Finset.sum_congr rfl
  intro i hi
  simp only [Finset.mem_filter, Finset.mem_univ, true_and] at hi
  have hbit : i.val.testBit t = false := by
    cases hb : i.val.testBit t with
    | false => rfl
    | true => exact absurd hb hi
  have hbit' : (flipBit i t h).val.testBit t = true := by
    simp [hbit]
  simp only [hbit, hbit', if_true, if_false, Bool.false_eq_true, flipBit_flipBit]
  rw [absSq_eq_normSq, absSq_eq_normSq, absSq_eq_normSq, absSq_eq_normSq]
  rw [hg (ψ i) (ψ (flipBit i t h))]

/-- Flipping the masked bits swaps the two members of a pair, and the
executed-swap condition is a property of the unordered pair. -/
theorem swapCond_flipMask {n : ℕ} (C : ℕ → Bool) (mask : ℕ) (hm : mask < 2 ^ n)
    (j : Fin (2 ^ n)) :
    swapCond C mask hm (flipMask j mask hm) ↔ swapCond C mask hm j := by
  unfold swapCond
  rw [flipMask_flipMask]
  exact or_comm

/-- The net permutation performed by a guarded pair-swap loop. -/
def swapPermFun {n : ℕ} (C : ℕ → Bool) (mask : ℕ) (hm : mask < 2 ^ n) :
    Fin (2 ^ n) → Fin (2 ^ n) :=
  fun j => if swapCond C mask hm j then flipMask j mask hm else j

theorem guardedPairSwap_eq_comp {n : ℕ} (C : ℕ → Bool) (mask : ℕ)
    (hm : mask < 2 ^ n) (ψ : Fin (2 ^ n) → ℂ) :
    guardedPairSwap C mask hm ψ = fun j => ψ (swapPermFun C mask hm j) := by
  funext j
  unfold guardedPairSwap swapPermFun
  by_cases hj : swapCond C mask hm j
  · rw [if_pos hj, if_pos hj]
  · rw [if_neg hj, if_neg hj]

theorem swapPermFun_involutive {n : ℕ} (C : ℕ → Bool) (mask : ℕ)
    (hm : mask < 2 ^ n) : Function.Involutive (swapPermFun C mask hm) := by
  intro j
  unfold swapPermFun
  by_cases hj : swapCond C mask hm j
  · rw [if_pos hj, if_pos ((swapCond_flipMask C mask hm j).mpr hj),
        flipMask_flipMask]
  · rw [if_neg hj, if_neg hj]

/-- A guarded pair-swap loop permutes the buffer, hence preserves the squared
norm. -/
theorem normSquared_guardedPairSwap {n : ℕ} (C : ℕ → Bool) (mask : ℕ)
    (hm : mask < 2 ^ n) (ψ : Fin (2 ^ n) → ℂ) :
    normSquared (guardedPairSwap C mask hm ψ) = normSquared ψ := by
  unfold normSquared
  rw [guardedPairSwap_eq_comp]
  exact Equiv.sum_comp
    (Function.Involutive.toPerm _ (swapPermFun_involutive C mask hm))
    (fun i => absSq (ψ i))

theorem flipBit_involutive {n : ℕ} (t : ℕ) (h : t < n) :
    Function.Involutive (fun i : Fin (2 ^ n) => flipBit i t h) :=
  fun i => flipBit_flipBit i t h

theorem normSquared_flipBit {n : ℕ} (t : ℕ) (h : t < n) (ψ : Fin (2 ^ n) → ℂ) :
    normSquared (fun i => ψ (flipBit i t h)) = normSquared ψ :=
  Equiv.sum_comp (Function.Involutive.toPerm _ (flipBit_involutive t h))
    (fun i => absSq (ψ i))

/-!
Pair identities: each gate's `2 × 2` transform preserves `|a0|² + |a1|²`.
-/

theorem normSq_pair_y (a0 a1 : ℂ) :
    Complex.normSq (-I * a1) + Complex.normSq (I * a0)
      = Complex.normSq a0 + Complex.normSq a1 := by
  simp only [Complex.normSq_mul, Complex.normSq_neg, Complex.normSq_I, one_mul]
  exact add_comm _ _

theorem normSq_pair_h (a0 a1 : ℂ) :
    Complex.normSq ((inv_sqrt2 : ℂ) * (a0 + a1)) +
      Complex.normSq ((inv_sqrt2 : ℂ) * (a0 - a1))
      = Complex.normSq a0 + Complex.normSq a1 := by
  have h2 : (inv_sqrt2 : ℝ) * inv_sqrt2 = 1 / 2 := by
    unfold inv_sqrt2
    rw [div_mul_div_comm, one_mul, Real.mul_self_sqrt (by norm_num : (0:ℝ) ≤ 2)]
  rw [Complex.normSq_mul, Complex.normSq_mul, Complex.normSq_ofReal, h2,
      Complex.normSq_add, Complex.normSq_sub]
  ring

theorem normSq_t_phase : Complex.normSq t_phase = 1 := by
  unfold t_phase
  have hrw : I * (Real.pi : ℂ) / 4 = ((Real.pi / 4 : ℝ) : ℂ) * I := by
    push_cast
    ring
  rw [hrw, Complex.normSq_eq_abs, Complex.abs_exp_ofReal_mul_I]
  norm_num

theorem normSq_exp_I_mul_half (θ : ℝ) :
    Complex.normSq (Complex.exp (I * (θ : ℂ) / 2)) = 1 := by
  have hrw : I * (θ : ℂ) / 2 = ((θ / 2 : ℝ) : ℂ) * I := by
    push_cast
    ring
  rw [hrw, Complex.normSq_eq_abs, Complex.abs_exp_ofReal_mul_I]
  norm_num

theorem normSq_exp_neg_I_mul_half (θ : ℝ) :
    Complex.normSq (Complex.exp (-I * (θ : ℂ) / 2)) = 1 := by
  have hrw : -I * (θ : ℂ) / 2 = ((-(θ / 2) : ℝ) : ℂ) * I := by
    push_cast
    ring
  rw [hrw, Complex.normSq_eq_abs, Complex.abs_exp_ofReal_mul_I]
  norm_num

theorem normSq_pair_rx (c s : ℝ) (hcs : s ^ 2 + c ^ 2 = 1) (a0 a1 : ℂ) :
    Complex.normSq ((c : ℂ) * a0 + -I * (s : ℂ) * a1) +
      Complex.normSq (-I * (s : ℂ) * a0 + (c : ℂ) * a1)
      = Complex.normSq a0 + Complex.normSq a1 := by
  simp only [Complex.normSq_apply, Complex.add_re, Complex.add_im, Complex.mul_re,
    Complex.mul_im, Complex.neg_re, Complex.neg_im, Complex.I_re, Complex.I_im,
    Complex.ofReal_re, Complex.ofReal_im]
  ring_nf
  linear_combination (a0.re ^ 2 + a0.im ^ 2 + a1.re ^ 2 + a1.im ^ 2) * hcs

theorem normSq_pair_ry (c s : ℝ) (hcs : s ^ 2 + c ^ 2 = 1) (a0 a1 : ℂ) :
    Complex.normSq ((c : ℂ) * a0 - (s : ℂ) * a1) +
      Complex.normSq ((s : ℂ) * a0 + (c : ℂ) * a1)
      = Complex.normSq a0 + Complex.normSq a1 := by
  simp only [Complex.normSq_apply, Complex.add_re, Complex.add_im, Complex.sub_re,
    Complex.sub_im, Complex.mul_re, Complex.mul_im, Complex.ofReal_re,
    Complex.ofReal_im]
  ring_nf
  linear_combination (a0.re ^ 2 + a0.im ^ 2 + a1.re ^ 2 + a1.im ^ 2) * hcs

/-!
Kernel-level norm preservation, one lemma per gate.
-/

theorem apply_x_norm {n : ℕ} (qs : QuantumState n) (t : ℕ) (h : t < n) :
    (qstate_apply_x qs t).1 = MACQ_SUCCESS ∧
      qstate_norm (qstate_apply_x qs t).2 = qstate_norm qs := by
  unfold qstate_apply_x
  rw [dif_pos h]
  refine ⟨rfl, ?_⟩
  unfold qstate_norm
  exact congrArg Real.sqrt (normSquared_flipBit t h qs.amplitudes)

theorem apply_y_norm {n : ℕ} (qs : QuantumState n) (t : ℕ) (h : t < n) :
    (qstate_apply_y qs t).1 = MACQ_SUCCESS ∧
      qstate_norm (qstate_apply_y qs t).2 = qstate_norm qs := by
  unfold qstate_apply_y
  rw [dif_pos h]
  refine ⟨rfl, ?_⟩
  unfold qstate_norm
  refine congrArg Real.sqrt ?_
  exact normSquared_pairUpdate t h qs.amplitudes
    (fun a0 a1 => -I * a1) (fun a0 a1 => I * a0)
    (fun a0 a1 => normSq_pair_y a0 a1)

theorem apply_z_norm {n : ℕ} (qs : QuantumState n) (t : ℕ) (h : t < n) :
    (qstate_apply_z qs t).1 = MACQ_SUCCESS ∧
      qstate_norm (qstate_apply_z qs t).2 = qstate_norm qs := by
  unfold qstate_apply_z
  rw [dif_pos h]
  refine ⟨rfl, ?_⟩
  unfold qstate_norm
  refine congrArg Real.sqrt ?_
  exact normSquared_pairUpdate t h qs.amplitudes
    (fun a0 a1 => a0) (fun a0 a1 => -a1)
    (fun a0 a1 => by simp [Complex.normSq_neg])

theorem apply_h_norm {n : ℕ} (qs : QuantumState n) (t : ℕ) (h : t < n) :
    (qstate_apply_h qs t).1 = MACQ_SUCCESS ∧
      qstate_norm (qstate_apply_h qs t).2 = qstate_norm qs := by
  unfold qstate_apply_h
  rw [dif_pos h]
  refine ⟨rfl, ?_⟩
  unfold qstate_norm
  refine congrArg Real.sqrt ?_
  exact normSquared_pairUpdate t h qs.amplitudes
    (fun a0 a1 => (inv_sqrt2 : ℂ) * (a0 + a1))
    (fun a0 a1 => (inv_sqrt2 : ℂ) * (a0 - a1))
    (fun a0 a1 => normSq_pair_h a0 a1)

theorem apply_s_norm {n : ℕ} (qs : QuantumState n) (t : ℕ) (h : t < n) :
    (qstate_apply_s qs t).1 = MACQ_SUCCESS ∧
      qstate_norm (qstate_apply_s qs t).2 = qstate_norm qs := by
  unfold qstate_apply_s
  rw [dif_pos h]
  refine ⟨rfl, ?_⟩
  unfold qstate_norm
  refine congrArg Real.sqrt ?_
  exact normSquared_pairUpdate t h qs.amplitudes
    (fun a0 a1 => a0) (fun a0 a1 => a1 * I)
    (fun a0 a1 => by simp [Complex.normSq_mul, Complex.normSq_I])

theorem apply_t_norm {n : ℕ} (qs : QuantumState n) (t : ℕ) (h : t < n) :
    (qstate_apply_t qs t).1 = MACQ_SUCCESS ∧
      qstate_norm (qstate_apply_t qs t).2 = qstate_norm qs := by
  unfold qstate_apply_t
  rw [dif_pos h]
  refine ⟨rfl, ?_⟩
  unfold qstate_norm
  refine congrArg Real.sqrt ?_
  exact normSquared_pairUpdate t h qs.amplitudes
    (fun a0 a1 => a0) (fun a0 a1 => a1 * t_phase)
    (fun a0 a1 => by simp [Complex.normSq_mul, normSq_t_phase])

theorem apply_rx_norm {n : ℕ} (qs : QuantumState n) (t : ℕ) (θ : ℝ) (h : t < n) :
    (qstate_apply_rx qs t θ).1 = MACQ_SUCCESS ∧
      qstate_norm (qstate_apply_rx qs t θ).2 = qstate_norm qs := by
  unfold qstate_apply_rx
  rw [dif_pos h]
  refine ⟨rfl, ?_⟩
  unfold qstate_norm
  refine congrArg Real.sqrt ?_
  exact normSquared_pairUpdate t h qs.amplitudes
    (fun a0 a1 => (Real.cos (θ / 2) : ℂ) * a0 + -I * (Real.sin (θ / 2) : ℂ) * a1)
    (fun a0 a1 => -I * (Real.sin (θ / 2) : ℂ) * a0 + (Real.cos (θ / 2) : ℂ) * a1)
    (fun a0 a1 =>
      normSq_pair_rx (Real.cos (θ / 2)) (Real.sin (θ / 2))
        (Real.sin_sq_add_cos_sq (θ / 2)) a0 a1)

theorem apply_ry_norm {n : ℕ} (qs : QuantumState n) (t : ℕ) (θ : ℝ) (h : t < n) :
    (qstate_apply_ry qs t θ).1 = MACQ_SUCCESS ∧
      qstate_norm (qstate_apply_ry qs t θ).2 = qstate_norm qs := by
  unfold qstate_apply_ry
  rw [dif_pos h]
  refine ⟨rfl, ?_⟩
  unfold qstate_norm
  refine congrArg Real.sqrt ?_
  exact normSquared_pairUpdate t h qs.amplitudes
    (fun a0 a1 => (Real.cos (θ / 2) : ℂ) * a0 - (Real.sin (θ / 2) : ℂ) * a1)
    (fun a0 a1 => (Real.sin (θ / 2) : ℂ) * a0 + (Real.cos (θ / 2) : ℂ) * a1)
    (fun a0 a1 =>
      normSq_pair_ry (Real.cos (θ / 2)) (Real.sin (θ / 2))
        (Real.sin_sq_add_cos_sq (θ / 2)) a0 a1)

theorem apply_rz_norm {n : ℕ} (qs : QuantumState n) (t : ℕ) (θ : ℝ) (h : t < n) :
    (qstate_apply_rz qs t θ).1 = MACQ_SUCCESS ∧
      qstate_norm (qstate_apply_rz qs t θ).2 = qstate_norm qs := by
  unfold qstate_apply_rz
  rw [dif_pos h]
  refine ⟨rfl, ?_⟩
  unfold qstate_norm
  refine congrArg Real.sqrt ?_
  exact normSquared_pairUpdate t h qs.amplitudes
    (fun a0 a1 => a0 * Complex.exp (-I * (θ : ℂ) / 2))
    (fun a0 a1 => a1 * Complex.exp (I * (θ : ℂ) / 2))
    (fun a0 a1 => by
      rw [Complex.normSq_mul, Complex.normSq_mul, normSq_exp_I_mul_half,
          normSq_exp_neg_I_mul_half, mul_one, mul_one])

theorem apply_cnot_norm {n : ℕ} (qs : QuantumState n) (c t : ℕ)
    (hc : c < n) (ht : t < n) (hne : c ≠ t) :
    (qstate_apply_cnot qs c t).1 = MACQ_SUCCESS ∧
      qstate_norm (qstate_apply_cnot qs c t).2 = qstate_norm qs := by
  unfold qstate_apply_cnot
  rw [dif_pos ⟨hc, ht⟩, if_neg hne]
  refine ⟨rfl, ?_⟩
  unfold qstate_norm
  exact congrArg Real.sqrt (normSquared_guardedPairSwap _ _ _ qs.amplitudes)

theorem apply_cz_norm {n : ℕ} (qs : QuantumState n) (c t : ℕ)
    (hc : c < n) (ht : t < n) :
    (qstate_apply_cz qs c t).1 = MACQ_SUCCESS ∧
      qstate_norm (qstate_apply_cz qs c t).2 = qstate_norm qs := by
  unfold qstate_apply_cz
  rw [dif_pos ⟨hc, ht⟩]
  refine ⟨rfl, ?_⟩
  unfold qstate_norm
  refine congrArg Real.sqrt ?_
  unfold normSquared
  dsimp only
  apply Finset.sum_congr rfl
  intro i _
  by_cases hcond : i.val.testBit c ∧ i.val.testBit t
  · rw [if_pos hcond, absSq_eq_normSq, absSq_eq_normSq, Complex.normSq_neg]
  · rw [if_neg hcond]

theorem apply_swap_norm {n : ℕ} (qs : QuantumState n) (q1 q2 : ℕ)
    (h1 : q1 < n) (h2 : q2 < n) :
    (qstate_apply_swap qs q1 q2).1 = MACQ_SUCCESS ∧
      qstate_norm (qstate_apply_swap qs q1 q2).2 = qstate_norm qs := by
  unfold qstate_apply_swap
  rw [dif_pos ⟨h1, h2⟩]
  by_cases heq : q1 = q2
  · rw [if_pos heq]
    exact ⟨rfl, rfl⟩
  · rw [if_neg heq]
    refine ⟨rfl, ?_⟩
    unfold qstate_norm
    exact congrArg Real.sqrt (normSquared_guardedPairSwap _ _ _ qs.amplitudes)

theorem apply_toffoli_norm {n : ℕ} (qs : QuantumState n) (c1 c2 t : ℕ)
    (h1 : c1 < n) (h2 : c2 < n) (ht : t < n) :
    (qstate_apply_toffoli qs c1 c2 t).1 = MACQ_SUCCESS ∧
      qstate_norm (qstate_apply_toffoli qs c1 c2 t).2 = qstate_norm qs := by
  unfold qstate_apply_toffoli
  rw [dif_pos ⟨h1, h2, ht⟩]
  refine ⟨rfl, ?_⟩
  unfold qstate_norm
  exact congrArg Real.sqrt (normSquared_guardedPairSwap _ _ _ qs.amplitudes)

/-!
### Further helper lemmas
-/

/-- A character loop aborts with `none` as soon as the bitstring contains a
character other than `'0'` and `'1'`. -/
theorem bitstringIndex_eq_none {cs : List Char}
    (hbad : ∃ c ∈ cs, c ≠ '0' ∧ c ≠ '1') : bitstringIndex cs = none := by
  induction cs with
  | nil => simp at hbad
  | cons c rest ih =>
    obtain ⟨d, hd, h0, h1⟩ := hbad
    rcases List.mem_cons.mp hd with rfl | hdr
    · unfold bitstringIndex
      rw [if_neg h1, if_neg h0]
    · unfold bitstringIndex
      by_cases hc1 : c = '1'
      · rw [if_pos hc1, ih ⟨d, hdr, h0, h1⟩]
        rfl
      · by_cases hc0 : c = '0'
        · rw [if_neg hc1, if_pos hc0, ih ⟨d, hdr, h0, h1⟩]
          rfl
        · rw [if_neg hc1, if_neg hc0]

/-- An index compares below its own value XOR `2 ^ t` exactly when bit `t` is
clear (flipping a clear bit adds `2 ^ t`, flipping a set bit subtracts it). -/
theorem lt_xor_two_pow_iff (x t : ℕ) : x < x ^^^ 2 ^ t ↔ x.testBit t = false := by
  constructor
  · intro hlt
    cases hb : x.testBit t with
    | false => rfl
    | true =>
      exfalso
      have hgt : x ^^^ 2 ^ t < x := by
        apply Nat.lt_of_testBit t
        · simp [Nat.testBit_xor, hb, Nat.testBit_two_pow_self]
        · exact hb
        · intro j hj
          simp [Nat.testBit_xor, Nat.testBit_two_pow_of_ne (Nat.ne_of_lt hj)]
      omega
  · intro hb
    apply Nat.lt_of_testBit t
    · exact hb
    · simp [Nat.testBit_xor, hb, Nat.testBit_two_pow_self]
    · intro j hj
      simp [Nat.testBit_xor, Nat.testBit_two_pow_of_ne (Nat.ne_of_lt hj)]

/-- When every index passing the control test has bit `t` set, a guarded
pair-swap loop with mask `2 ^ t` never fires: the loop index of a candidate
pair would need bit `t` both set (to pass `C`) and clear (to pass the `<`
guard). -/
theorem guardedPairSwap_of_control_has_target {n : ℕ} (C : ℕ → Bool) (t : ℕ)
    (hm : 2 ^ t < 2 ^ n) (hC : ∀ x, C x = true → x.testBit t = true)
    (ψ : Fin (2 ^ n) → ℂ) : guardedPairSwap C (2 ^ t) hm ψ = ψ := by
  funext j
  unfold guardedPairSwap
  rw [if_neg]
  rintro (⟨h1, h2⟩ | ⟨h1, h2⟩)
  · have hbit : j.val.testBit t = true := hC _ h1
    have h2' : j.val < j.val ^^^ 2 ^ t := h2
    rw [lt_xor_two_pow_iff] at h2'
    exact Bool.noConfusion (hbit.symm.trans h2')
  · have hbit : (j.val ^^^ 2 ^ t).testBit t = true := hC _ h1
    have h2' : (j.val ^^^ 2 ^ t) < (j.val ^^^ 2 ^ t) ^^^ 2 ^ t := by
      have hxx : (j.val ^^^ 2 ^ t) ^^^ 2 ^ t = j.val := by
        rw [Nat.xor_assoc, Nat.xor_self, Nat.xor_zero]
      rw [hxx]
      exact h2
    rw [lt_xor_two_pow_iff] at h2'
    exact Bool.noConfusion (hbit.symm.trans h2')

/-- A guarded pair-swap loop maps a computational basis vector to the basis
vector at the image of the net permutation. -/
theorem guardedPairSwap_basis {n : ℕ} (C : ℕ → Bool) (mask : ℕ)
    (hm : mask < 2 ^ n) (b : Fin (2 ^ n)) :
    guardedPairSwap C mask hm (fun i => if i = b then (1 : ℂ) else 0)
      = fun i => if i = swapPermFun C mask hm b then (1 : ℂ) else 0 := by
  rw [guardedPairSwap_eq_comp]
  funext j
  have hiff : swapPermFun C mask hm j = b ↔ j = swapPermFun C mask hm b := by
    constructor
    · intro hh
      rw [← hh, swapPermFun_involutive C mask hm j]
    · intro hh
      rw [hh, swapPermFun_involutive C mask hm b]
  simp only [hiff]

/-!
### Claims
-/

/-- C1 counterexample: on the 1-qubit state `|1⟩` and the correctly sized but
invalid bitstring `"2"`, `qstate_init_basis` does not leave the amplitude at
index 1 unchanged (the buffer is cleared before character validation), so the
claimed conjunction fails. -/
theorem C1_counterexample :
    ¬ ((qstate_init_basis (basisState 1 1) ['2']).1 = MACQ_ERROR_INVALID_INDEX ∧
        (qstate_init_basis (basisState 1 1) ['2']).2.amplitudes 1
          = (basisState 1 1).amplitudes 1) := by
  intro hc
  have h2 := hc.2
  have hl : (qstate_init_basis (basisState 1 1) ['2']).2.amplitudes 1 = 0 := rfl
  have hr : (basisState 1 1).amplitudes 1 = 1 := by
    simp [basisState]
  rw [hl, hr] at h2
  exact zero_ne_one h2

/-- C1 (amended): for every state and every bitstring of the right length
containing a character other than `'0'`/`'1'`, `qstate_init_basis` returns the
invalid-index error, but the buffer has already been cleared by the `memset`
that precedes character validation: after the call every amplitude is `0`
(rather than unchanged). -/
theorem C1_init_basis_invalid_char {n : ℕ} (qs : QuantumState n)
    (cs : List Char) (hlen : cs.length = n)
    (hbad : ∃ c ∈ cs, c ≠ '0' ∧ c ≠ '1') :
    (qstate_init_basis qs cs).1 = MACQ_ERROR_INVALID_INDEX ∧
      (qstate_init_basis qs cs).2.amplitudes = fun _ => 0 := by
  unfold qstate_init_basis
  rw [if_neg (by simp [hlen]), bitstringIndex_eq_none hbad]
  exact ⟨rfl, rfl⟩

/-- Witness for C1 at the concrete input of the counterexample. -/
theorem C1_init_basis_invalid_char_witness :
    (qstate_init_basis (basisState 1 1) ['2']).1 = MACQ_ERROR_INVALID_INDEX ∧
      (qstate_init_basis (basisState 1 1) ['2']).2.amplitudes = fun _ => 0 :=
  C1_init_basis_invalid_char (basisState 1 1) ['2'] rfl
    ⟨'2', by decide, by decide, by decide⟩

/-- C7 counterexample: `qstate_get_amplitude` on an out-of-range basis index
returns `0`, not the claimed sentinel `-1.0`. -/
theorem C7_counterexample :
    ¬ (qstate_get_amplitude (some (basisState 1 0)) 2 = (-1 : ℂ)) := by
  intro h
  have h0 : qstate_get_amplitude (some (basisState 1 0)) 2 = 0 := rfl
  rw [h0] at h
  norm_num at h

/-- C7 (amended): for a `NULL` state handle or an out-of-range basis index,
`qstate_get_amplitude` returns `0.0` — a value indistinguishable from an
ordinary zero amplitude — rather than the `-1.0` sentinel used by the
probability accessors. -/
theorem C7_get_amplitude_invalid {n : ℕ} (qs : Option (QuantumState n))
    (basis_index : ℕ) (h : qs = none ∨ 2 ^ n ≤ basis_index) :
    qstate_get_amplitude qs basis_index = 0 := by
  rcases h with rfl | hge
  · rfl
  · cases qs with
    | none => rfl
    | some qs =>
      show (if h : basis_index < 2 ^ n then qs.amplitudes ⟨basis_index, h⟩ else 0) = 0
      rw [dif_neg (not_lt.mpr hge)]

/-- Witness for C7 at a concrete `NULL` handle. -/
theorem C7_get_amplitude_invalid_witness :
    qstate_get_amplitude (none : Option (QuantumState 1)) 0 = 0 :=
  C7_get_amplitude_invalid none 0 (Or.inl rfl)

/-- C8: `qstate_normalize` fails with an error (`MACQ_ERROR_INVALID_GATE`) and
mutates nothing when the norm is below `1e-10`, and otherwise succeeds,
dividing every amplitude by the norm. -/
theorem C8_normalize_spec {n : ℕ} (qs : QuantumState n) :
    (qstate_norm qs < 1e-10 →
      qstate_normalize qs = (MACQ_ERROR_INVALID_GATE, qs)) ∧
    (1e-10 ≤ qstate_norm qs →
      (qstate_normalize qs).1 = MACQ_SUCCESS ∧
        (qstate_normalize qs).2.amplitudes
          = fun i => qs.amplitudes i / ((qstate_norm qs : ℝ) : ℂ)) := by
  constructor
  · intro h
    simp only [qstate_normalize]
    rw [if_pos h]
  · intro h
    simp only [qstate_normalize]
    rw [if_neg (not_lt.mpr h)]
    exact ⟨rfl, rfl⟩

/-- Witness for C8: the zero vector (norm `0 < 1e-10`) fails without mutation,
and the basis state `|0⟩` (norm `1 ≥ 1e-10`) succeeds. -/
theorem C8_normalize_spec_witness :
    qstate_normalize (QuantumState.mk (fun _ : Fin (2 ^ 1) => 0) 1)
        = (MACQ_ERROR_INVALID_GATE, QuantumState.mk (fun _ : Fin (2 ^ 1) => 0) 1) ∧
      (qstate_normalize (basisState 1 0)).1 = MACQ_SUCCESS := by
  have hz : qstate_norm (QuantumState.mk (fun _ : Fin (2 ^ 1) => 0) 1) = 0 := by
    simp [qstate_norm, normSquared, absSq]
  have hb : qstate_norm (basisState 1 0) = 1 := by
    simp [qstate_norm, normSquared, basisState, absSq, Fin.sum_univ_succ]
  constructor
  · exact (C8_normalize_spec _).1 (by rw [hz]; norm_num)
  · exact ((C8_normalize_spec _).2 (by rw [hb]; norm_num)).1

/-- C9: on the 1-qubit basis state `|0⟩` with the uniform draw at its maximum
`1.0` (i.e. `rand()` returning `RAND_MAX`), `qstate_measure` selects outcome
`1` even though `prob_1 = 0`; the collapse `norm_factor` is `√0 = 0` and the
surviving amplitude (index 1) is divided by that zero factor — the collapse
division is unguarded against a zero-probability outcome. -/
theorem C9_measure_divide_by_zero :
    measure_result (basisState 1 0) 0 1 = 1 ∧
    measure_prob_1 (basisState 1 0) 0 = 0 ∧
    measure_norm_factor (basisState 1 0) 0 1 = 0 ∧
    (qstate_measure (basisState 1 0) 0 1).2.amplitudes 1
      = (basisState 1 0).amplitudes 1 / ((measure_norm_factor (basisState 1 0) 0 1 : ℝ) : ℂ) := by
  have hp0 : measure_prob_0 (basisState 1 0) 0 = 1 := by
    simp [measure_prob_0, basisState, absSq, Fin.sum_univ_succ]
  have hp1 : measure_prob_1 (basisState 1 0) 0 = 0 := by
    simp [measure_prob_1, basisState, absSq, Fin.sum_univ_succ]
  have hres : measure_result (basisState 1 0) 0 1 = 1 := by
    unfold measure_result
    rw [hp0, hp1, if_neg (by norm_num)]
  have hnf : measure_norm_factor (basisState 1 0) 0 1 = 0 := by
    unfold measure_norm_factor
    rw [hres, if_neg (by norm_num), hp1, Real.sqrt_zero]
  refine ⟨hres, hp1, hnf, ?_⟩
  simp only [qstate_measure]
  rw [dif_pos (by norm_num : (0 : ℕ) < 1)]
  simp only [hres, show (((1 : Fin (2 ^ 1)) : ℕ)).testBit 0 = true from rfl]
  norm_num

/-- C2 counterexample: `qstate_apply_cz` with `control = target = 0` on the
1-qubit state `|1⟩` neither returns an invalid-index/invalid-gate error nor
leaves the state unmutated (it returns success and negates the amplitude at
index 1), so the claimed conjunction fails for the CZ kernel. -/
theorem C2_counterexample :
    ¬ (((qstate_apply_cz (basisState 1 1) 0 0).1 = MACQ_ERROR_INVALID_INDEX ∨
          (qstate_apply_cz (basisState 1 1) 0 0).1 = MACQ_ERROR_INVALID_GATE) ∧
        (qstate_apply_cz (basisState 1 1) 0 0).2 = basisState 1 1) := by
  intro hc
  have h1 : (qstate_apply_cz (basisState 1 1) 0 0).1 = MACQ_SUCCESS := rfl
  rcases hc.1 with h | h
  · exact absurd (h1.symm.trans h) (by decide)
  · exact absurd (h1.symm.trans h) (by decide)

/-- C2 (amended): only `qstate_apply_cnot` rejects duplicate qubit indices
(returning the invalid-gate error with no mutation); the other kernels perform
no duplicate check and return success: CZ with `control == target` negates
every amplitude whose shared-qubit bit is 1 (acting as a Z gate), SWAP with
equal qubits is an explicit unmutating no-op, and Toffoli leaves the state
unchanged when the target coincides with either control and acts exactly as
CNOT when the two controls coincide. -/
theorem C2_duplicate_indices :
    (∀ (n : ℕ) (qs : QuantumState n) (c : ℕ), c < n →
        qstate_apply_cnot qs c c = (MACQ_ERROR_INVALID_GATE, qs)) ∧
    (∀ (n : ℕ) (qs : QuantumState n) (c : ℕ), c < n →
        qstate_apply_cz qs c c
          = (MACQ_SUCCESS,
              { amplitudes := fun i =>
                  if i.val.testBit c then -qs.amplitudes i else qs.amplitudes i
                norm := qs.norm })) ∧
    (∀ (n : ℕ) (qs : QuantumState n) (q : ℕ), q < n →
        qstate_apply_swap qs q q = (MACQ_SUCCESS, qs)) ∧
    (∀ (n : ℕ) (qs : QuantumState n) (c2 t : ℕ), c2 < n → t < n →
        qstate_apply_toffoli qs t c2 t = (MACQ_SUCCESS, qs)) ∧
    (∀ (n : ℕ) (qs : QuantumState n) (c1 t : ℕ), c1 < n → t < n →
        qstate_apply_toffoli qs c1 t t = (MACQ_SUCCESS, qs)) ∧
    (∀ (n : ℕ) (qs : QuantumState n) (c t : ℕ), c < n → t < n → c ≠ t →
        qstate_apply_toffoli qs c c t = qstate_apply_cnot qs c t) := by
  refine ⟨?_, ?_, ?_, ?_, ?_, ?_⟩
  · intro n qs c h
    unfold qstate_apply_cnot
    rw [dif_pos ⟨h, h⟩, if_pos rfl]
  · intro n qs c h
    unfold qstate_apply_cz
    rw [dif_pos ⟨h, h⟩]
    have hamp : (fun i : Fin (2 ^ n) =>
        if i.val.testBit c ∧ i.val.testBit c then -qs.amplitudes i
        else qs.amplitudes i)
          = fun i : Fin (2 ^ n) =>
              if i.val.testBit c then -qs.amplitudes i else qs.amplitudes i := by
      funext i
      by_cases hb : i.val.testBit c = true
      · rw [if_pos ⟨hb, hb⟩, if_pos hb]
      · rw [if_neg (fun hh => hb hh.1), if_neg hb]
    rw [hamp]
  · intro n qs q h
    unfold qstate_apply_swap
    rw [dif_pos ⟨h, h⟩, if_pos rfl]
  · intro n qs c2 t hc2 ht
    unfold qstate_apply_toffoli
    rw [dif_pos ⟨ht, hc2, ht⟩,
        guardedPairSwap_of_control_has_target _ t _
          (fun x hx => (Bool.and_eq_true_iff.mp hx).1) qs.amplitudes]
  · intro n qs c1 t hc1 ht
    unfold qstate_apply_toffoli
    rw [dif_pos ⟨hc1, ht, ht⟩,
        guardedPairSwap_of_control_has_target _ t _
          (fun x hx => (Bool.and_eq_true_iff.mp hx).2) qs.amplitudes]
  · intro n qs c t hc ht hne
    unfold qstate_apply_toffoli qstate_apply_cnot
    rw [dif_pos ⟨hc, hc, ht⟩, dif_pos ⟨hc, ht⟩, if_neg hne]
    have hC : (fun i : ℕ => i.testBit c && i.testBit c) = fun i : ℕ => i.testBit c := by
      funext i
      exact Bool.and_self _
    rw [hC]

/-- Witness for C2 at concrete inputs. -/
theorem C2_duplicate_indices_witness :
    qstate_apply_cnot (basisState 1 0) 0 0 = (MACQ_ERROR_INVALID_GATE, basisState 1 0) ∧
    qstate_apply_cz (basisState 1 1) 0 0
      = (MACQ_SUCCESS,
          { amplitudes := fun i =>
              if i.val.testBit 0 then -(basisState 1 1).amplitudes i
              else (basisState 1 1).amplitudes i
            norm := (basisState 1 1).norm }) ∧
    qstate_apply_swap (basisState 1 0) 0 0 = (MACQ_SUCCESS, basisState 1 0) ∧
    qstate_apply_toffoli (basisState 2 0) 0 1 0 = (MACQ_SUCCESS, basisState 2 0) ∧
    qstate_apply_toffoli (basisState 2 0) 0 1 1 = (MACQ_SUCCESS, basisState 2 0) ∧
    qstate_apply_toffoli (basisState 2 0) 0 0 1 = qstate_apply_cnot (basisState 2 0) 0 1 :=
  ⟨C2_duplicate_indices.1 1 (basisState 1 0) 0 (by norm_num),
   C2_duplicate_indices.2.1 1 (basisState 1 1) 0 (by norm_num),
   C2_duplicate_indices.2.2.1 1 (basisState 1 0) 0 (by norm_num),
   C2_duplicate_indices.2.2.2.1 2 (basisState 2 0) 1 0 (by norm_num) (by norm_num),
   C2_duplicate_indices.2.2.2.2.1 2 (basisState 2 0) 0 1 (by norm_num) (by norm_num),
   C2_duplicate_indices.2.2.2.2.2 2 (basisState 2 0) 0 1 (by norm_num) (by norm_num)
     (by norm_num)⟩

/-- C3: starting from the 2-qubit state `|00⟩`, `qstate_apply_h` on qubit 0
followed by `qstate_apply_cnot` with control 0 and target 1 succeeds and
yields amplitudes `inv_sqrt2 = 1/√2` at basis indices 0 and 3 and `0` at basis
indices 1 and 2. -/
theorem C3_bell_state :
    (qstate_apply_h (basisState 2 0) 0).1 = MACQ_SUCCESS ∧
    (qstate_apply_cnot (qstate_apply_h (basisState 2 0) 0).2 0 1).1 = MACQ_SUCCESS ∧
    (qstate_apply_cnot (qstate_apply_h (basisState 2 0) 0).2 0 1).2.amplitudes 0
      = (inv_sqrt2 : ℂ) ∧
    (qstate_apply_cnot (qstate_apply_h (basisState 2 0) 0).2 0 1).2.amplitudes 1 = 0 ∧
    (qstate_apply_cnot (qstate_apply_h (basisState 2 0) 0).2 0 1).2.amplitudes 2 = 0 ∧
    (qstate_apply_cnot (qstate_apply_h (basisState 2 0) 0).2 0 1).2.amplitudes 3
      = (inv_sqrt2 : ℂ) := by
  refine ⟨rfl, rfl, ?_, ?_, ?_, ?_⟩ <;>
    simp [qstate_apply_h, qstate_apply_cnot, basisState, guardedPairSwap, swapCond,
      flipBit, flipMask, Fin.ext_iff,
      show ((0 : Fin (2 ^ 2))).val = 0 from rfl, show ((1 : Fin (2 ^ 2))).val = 1 from rfl,
      show ((2 : Fin (2 ^ 2))).val = 2 from rfl, show ((3 : Fin (2 ^ 2))).val = 3 from rfl]

/-- Truth table modelled after the spec sentence for C5: `Toffoli(0,1,2)`
flips qubit 2 (bit 2 of the basis index) exactly when qubits 0 and 1 are both
1. -/
def toffoliTruth (b : Fin (2 ^ 3)) : Fin (2 ^ 3) :=
  if b.val.testBit 0 ∧ b.val.testBit 1 then
    ⟨b.val ^^^ 2 ^ 2, Nat.xor_lt_two_pow b.isLt (by norm_num)⟩
  else b

theorem toffoli_perm_eq : ∀ b : Fin (2 ^ 3),
    swapPermFun (fun i => i.testBit 0 && i.testBit 1) (2 ^ 2)
      (two_pow_lt (by norm_num : (2 : ℕ) < 3)) b = toffoliTruth b := by
  decide

/-- C5: on each of the 8 three-qubit computational basis states,
`qstate_apply_toffoli` with controls 0, 1 and target 2 succeeds and maps the
basis state to the one given by the Toffoli truth table: qubit 2 is flipped
exactly when qubits 0 and 1 are both 1. -/
theorem C5_toffoli_truth_table :
    ∀ b : Fin (2 ^ 3),
      qstate_apply_toffoli (basisState 3 b) 0 1 2
        = (MACQ_SUCCESS, basisState 3 (toffoliTruth b)) := by
  intro b
  unfold qstate_apply_toffoli
  rw [dif_pos (⟨by norm_num, by norm_num, by norm_num⟩ :
        (0 : ℕ) < 3 ∧ (1 : ℕ) < 3 ∧ (2 : ℕ) < 3)]
  show (MACQ_SUCCESS,
      ({ amplitudes := guardedPairSwap (fun i => i.testBit 0 && i.testBit 1) (2 ^ 2)
            (two_pow_lt (by norm_num : (2 : ℕ) < 3))
            (fun i => if i = b then (1 : ℂ) else 0)
         norm := 1 } : QuantumState 3))
    = (MACQ_SUCCESS, basisState 3 (toffoliTruth b))
  rw [guardedPairSwap_basis, toffoli_perm_eq b]
  rfl

/-- Witness for C5 at the concrete basis state `|110⟩` (index 3). -/
theorem C5_toffoli_truth_table_witness :
    qstate_apply_toffoli (basisState 3 3) 0 1 2
      = (MACQ_SUCCESS, basisState 3 (toffoliTruth 3)) :=
  C5_toffoli_truth_table 3

/-- C4: for every state, every valid qubit index (pairwise distinct where
required) and every angle parameter, each gate kernel other than measurement
and noise — X, Y, Z, H, S, T, Rx, Ry, Rz, CNOT, CZ, SWAP, Toffoli — returns
`MACQ_SUCCESS` and leaves `qstate_norm` exactly unchanged (hence unchanged
within `1e-9`). -/
theorem C4_gates_preserve_norm :
    (∀ (n : ℕ) (qs : QuantumState n) (t : ℕ), t < n →
        (qstate_apply_x qs t).1 = MACQ_SUCCESS ∧
          qstate_norm (qstate_apply_x qs t).2 = qstate_norm qs) ∧
    (∀ (n : ℕ) (qs : QuantumState n) (t : ℕ), t < n →
        (qstate_apply_y qs t).1 = MACQ_SUCCESS ∧
          qstate_norm (qstate_apply_y qs t).2 = qstate_norm qs) ∧
    (∀ (n : ℕ) (qs : QuantumState n) (t : ℕ), t < n →
        (qstate_apply_z qs t).1 = MACQ_SUCCESS ∧
          qstate_norm (qstate_apply_z qs t).2 = qstate_norm qs) ∧
    (∀ (n : ℕ) (qs : QuantumState n) (t : ℕ), t < n →
        (qstate_apply_h qs t).1 = MACQ_SUCCESS ∧
          qstate_norm (qstate_apply_h qs t).2 = qstate_norm qs) ∧
    (∀ (n : ℕ) (qs : QuantumState n) (t : ℕ), t < n →
        (qstate_apply_s qs t).1 = MACQ_SUCCESS ∧
          qstate_norm (qstate_apply_s qs t).2 = qstate_norm qs) ∧
    (∀ (n : ℕ) (qs : QuantumState n) (t : ℕ), t < n →
        (qstate_apply_t qs t).1 = MACQ_SUCCESS ∧
          qstate_norm (qstate_apply_t qs t).2 = qstate_norm qs) ∧
    (∀ (n : ℕ) (qs : QuantumState n) (t : ℕ) (θ : ℝ), t < n →
        (qstate_apply_rx qs t θ).1 = MACQ_SUCCESS ∧
          qstate_norm (qstate_apply_rx qs t θ).2 = qstate_norm qs) ∧
    (∀ (n : ℕ) (qs : QuantumState n) (t : ℕ) (θ : ℝ), t < n →
        (qstate_apply_ry qs t θ).1 = MACQ_SUCCESS ∧
          qstate_norm (qstate_apply_ry qs t θ).2 = qstate_norm qs) ∧
    (∀ (n : ℕ) (qs : QuantumState n) (t : ℕ) (θ : ℝ), t < n →
        (qstate_apply_rz qs t θ).1 = MACQ_SUCCESS ∧
          qstate_norm (qstate_apply_rz qs t θ).2 = qstate_norm qs) ∧
    (∀ (n : ℕ) (qs : QuantumState n) (c t : ℕ), c < n → t < n → c ≠ t →
        (qstate_apply_cnot qs c t).1 = MACQ_SUCCESS ∧
          qstate_norm (qstate_apply_cnot qs c t).2 = qstate_norm qs) ∧
    (∀ (n : ℕ) (qs : QuantumState n) (c t : ℕ), c < n → t < n → c ≠ t →
        (qstate_apply_cz qs c t).1 = MACQ_SUCCESS ∧
          qstate_norm (qstate_apply_cz qs c t).2 = qstate_norm qs) ∧
    (∀ (n : ℕ) (qs : QuantumState n) (q1 q2 : ℕ), q1 < n → q2 < n → q1 ≠ q2 →
        (qstate_apply_swap qs q1 q2).1 = MACQ_SUCCESS ∧
          qstate_norm (qstate_apply_swap qs q1 q2).2 = qstate_norm qs) ∧
    (∀ (n : ℕ) (qs : QuantumState n) (c1 c2 t : ℕ), c1 < n → c2 < n → t < n →
        c1 ≠ c2 → c1 ≠ t → c2 ≠ t →
        (qstate_apply_toffoli qs c1 c2 t).1 = MACQ_SUCCESS ∧
          qstate_norm (qstate_apply_toffoli qs c1 c2 t).2 = qstate_norm qs) :=
  ⟨fun _ qs t h => apply_x_norm qs t h,
   fun _ qs t h => apply_y_norm qs t h,
   fun _ qs t h => apply_z_norm qs t h,
   fun _ qs t h => apply_h_norm qs t h,
   fun _ qs t h => apply_s_norm qs t h,
   fun _ qs t h => apply_t_norm qs t h,
   fun _ qs t θ h => apply_rx_norm qs t θ h,
   fun _ qs t θ h => apply_ry_norm qs t θ h,
   fun _ qs t θ h => apply_rz_norm qs t θ h,
   fun _ qs c t hc ht hne => apply_cnot_norm qs c t hc ht hne,
   fun _ qs c t hc ht _ => apply_cz_norm qs c t hc ht,
   fun _ qs q1 q2 h1 h2 _ => apply_swap_norm qs q1 q2 h1 h2,
   fun _ qs c1 c2 t h1 h2 ht _ _ _ => apply_toffoli_norm qs c1 c2 t h1 h2 ht⟩

/-- Witness for C4 at concrete states, indices and angle `1`. -/
theorem C4_gates_preserve_norm_witness :
    ((qstate_apply_x (basisState 3 0) 0).1 = MACQ_SUCCESS ∧
      qstate_norm (qstate_apply_x (basisState 3 0) 0).2 = qstate_norm (basisState 3 0)) ∧
    ((qstate_apply_y (basisState 3 0) 1).1 = MACQ_SUCCESS ∧
      qstate_norm (qstate_apply_y (basisState 3 0) 1).2 = qstate_norm (basisState 3 0)) ∧
    ((qstate_apply_z (basisState 3 0) 2).1 = MACQ_SUCCESS ∧
      qstate_norm (qstate_apply_z (basisState 3 0) 2).2 = qstate_norm (basisState 3 0)) ∧
    ((qstate_apply_h (basisState 3 0) 0).1 = MACQ_SUCCESS ∧
      qstate_norm (qstate_apply_h (basisState 3 0) 0).2 = qstate_norm (basisState 3 0)) ∧
    ((qstate_apply_s (basisState 3 0) 1).1 = MACQ_SUCCESS ∧
      qstate_norm (qstate_apply_s (basisState 3 0) 1).2 = qstate_norm (basisState 3 0)) ∧
    ((qstate_apply_t (basisState 3 0) 2).1 = MACQ_SUCCESS ∧
      qstate_norm (qstate_apply_t (basisState 3 0) 2).2 = qstate_norm (basisState 3 0)) ∧
    ((qstate_apply_rx (basisState 3 0) 0 1).1 = MACQ_SUCCESS ∧
      qstate_norm (qstate_apply_rx (basisState 3 0) 0 1).2 = qstate_norm (basisState 3 0)) ∧
    ((qstate_apply_ry (basisState 3 0) 1 1).1 = MACQ_SUCCESS ∧
      qstate_norm (qstate_apply_ry (basisState 3 0) 1 1).2 = qstate_norm (basisState 3 0)) ∧
    ((qstate_apply_rz (basisState 3 0) 2 1).1 = MACQ_SUCCESS ∧
      qstate_norm (qstate_apply_rz (basisState 3 0) 2 1).2 = qstate_norm (basisState 3 0)) ∧
    ((qstate_apply_cnot (basisState 3 0) 0 1).1 = MACQ_SUCCESS ∧
      qstate_norm (qstate_apply_cnot (basisState 3 0) 0 1).2 = qstate_norm (basisState 3 0)) ∧
    ((qstate_apply_cz (basisState 3 0) 1 2).1 = MACQ_SUCCESS ∧
      qstate_norm (qstate_apply_cz (basisState 3 0) 1 2).2 = qstate_norm (basisState 3 0)) ∧
    ((qstate_apply_swap (basisState 3 0) 0 2).1 = MACQ_SUCCESS ∧
      qstate_norm (qstate_apply_swap (basisState 3 0) 0 2).2 = qstate_norm (basisState 3 0)) ∧
    ((qstate_apply_toffoli (basisState 3 0) 0 1 2).1 = MACQ_SUCCESS ∧
      qstate_norm (qstate_apply_toffoli (basisState 3 0) 0 1 2).2
        = qstate_norm (basisState 3 0)) :=
  ⟨C4_gates_preserve_norm.1 3 (basisState 3 0) 0 (by norm_num),
   C4_gates_preserve_norm.2.1 3 (basisState 3 0) 1 (by norm_num),
   C4_gates_preserve_norm.2.2.1 3 (basisState 3 0) 2 (by norm_num),
   C4_gates_preserve_norm.2.2.2.1 3 (basisState 3 0) 0 (by norm_num),
   C4_gates_preserve_norm.2.2.2.2.1 3 (basisState 3 0) 1 (by norm_num),
   C4_gates_preserve_norm.2.2.2.2.2.1 3 (basisState 3 0) 2 (by norm_num),
   C4_gates_preserve_norm.2.2.2.2.2.2.1 3 (basisState 3 0) 0 1 (by norm_num),
   C4_gates_preserve_norm.2.2.2.2.2.2.2.1 3 (basisState 3 0) 1 1 (by norm_num),
   C4_gates_preserve_norm.2.2.2.2.2.2.2.2.1 3 (basisState 3 0) 2 1 (by norm_num),
   C4_gates_preserve_norm.2.2.2.2.2.2.2.2.2.1 3 (basisState 3 0) 0 1 (by norm_num)
     (by norm_num) (by norm_num),
   C4_gates_preserve_norm.2.2.2.2.2.2.2.2.2.2.1 3 (basisState 3 0) 1 2 (by norm_num)
     (by norm_num) (by norm_num),
   C4_gates_preserve_norm.2.2.2.2.2.2.2.2.2.2.2.1 3 (basisState 3 0) 0 2 (by norm_num)
     (by norm_num) (by norm_num),
   C4_gates_preserve_norm.2.2.2.2.2.2.2.2.2.2.2.2 3 (basisState 3 0) 0 1 2 (by norm_num)
     (by norm_num) (by norm_num) (by norm_num) (by norm_num) (by norm_num)⟩

/-- The probability of the selected measurement outcome (`prob_0` or `prob_1`
according to `result`), the quantity whose square root is the collapse
divisor of macq.c line 543. -/
noncomputable def measureOutcomeProb {n : ℕ} (qs : QuantumState n) (qubit : ℕ)
    (rand_val : ℝ) : ℝ :=
  if measure_result qs qubit rand_val = 0 then measure_prob_0 qs qubit
  else measure_prob_1 qs qubit

theorem measure_norm_factor_eq {n : ℕ} (qs : QuantumState n) (qubit : ℕ)
    (rand_val : ℝ) :
    measure_norm_factor qs qubit rand_val
      = Real.sqrt (measureOutcomeProb qs qubit rand_val) := by
  unfold measure_norm_factor measureOutcomeProb
  by_cases h : measure_result qs qubit rand_val = 0
  · rw [if_pos h, if_pos h]
  · rw [if_neg h, if_neg h]

theorem absSq_nonneg (z : ℂ) : 0 ≤ absSq z := by
  rw [absSq_eq_normSq]
  exact Complex.normSq_nonneg z

/-- C6: for every state and every valid qubit index, with the random draw
modelled as an input, `qstate_measure` returns an outcome in `{0, 1}`; every
amplitude whose measured-qubit bit disagrees with the outcome is zeroed and
every consistent amplitude is divided by the square root of the outcome
probability (the summed squared magnitude of the consistent subspace), so the
post-measurement state has unit norm whenever that probability is positive. -/
theorem C6_measure_collapse {n : ℕ} (qs : QuantumState n) (qubit : ℕ)
    (rand_val : ℝ) (h : qubit < n) :
    ((qstate_measure qs qubit rand_val).1 = 0 ∨
      (qstate_measure qs qubit rand_val).1 = 1) ∧
    (qstate_measure qs qubit rand_val).2.amplitudes
      = (fun i =>
          if ((qstate_measure qs qubit rand_val).1 = 1 ∧ i.val.testBit qubit) ∨
              ((qstate_measure qs qubit rand_val).1 = 0 ∧ ¬ i.val.testBit qubit)
          then qs.amplitudes i
                / ((Real.sqrt (measureOutcomeProb qs qubit rand_val) : ℝ) : ℂ)
          else 0) ∧
    (0 < measureOutcomeProb qs qubit rand_val →
      qstate_norm (qstate_measure qs qubit rand_val).2 = 1) := by
  have hfst : (qstate_measure qs qubit rand_val).1
      = measure_result qs qubit rand_val := by
    simp only [qstate_measure]
    rw [dif_pos h]
  have hamp : (qstate_measure qs qubit rand_val).2.amplitudes
      = fun i =>
          if (measure_result qs qubit rand_val = 1 ∧ i.val.testBit qubit) ∨
              (measure_result qs qubit rand_val = 0 ∧ ¬ i.val.testBit qubit)
          then qs.amplitudes i / ((measure_norm_factor qs qubit rand_val : ℝ) : ℂ)
          else 0 := by
    simp only [qstate_measure]
    rw [dif_pos h]
  have hr01 : measure_result qs qubit rand_val = 0 ∨
      measure_result qs qubit rand_val = 1 := by
    unfold measure_result
    split
    · exact Or.inl rfl
    · exact Or.inr rfl
  refine ⟨?_, ?_, ?_⟩
  · rw [hfst]
    exact hr01
  · rw [hfst, hamp, measure_norm_factor_eq]
  · intro hp
    have hpnn : 0 ≤ measureOutcomeProb qs qubit rand_val := le_of_lt hp
    have hsq : Real.sqrt (measureOutcomeProb qs qubit rand_val)
        * Real.sqrt (measureOutcomeProb qs qubit rand_val)
        = measureOutcomeProb qs qubit rand_val := Real.mul_self_sqrt hpnn
    have hterm : ∀ i : Fin (2 ^ n),
        absSq ((qstate_measure qs qubit rand_val).2.amplitudes i)
          = (if (measure_result qs qubit rand_val = 1 ∧ i.val.testBit qubit) ∨
                (measure_result qs qubit rand_val = 0 ∧ ¬ i.val.testBit qubit)
              then absSq (qs.amplitudes i) else 0)
              / measureOutcomeProb qs qubit rand_val := by
      intro i
      rw [hamp]
      dsimp only
      by_cases hc : (measure_result qs qubit rand_val = 1 ∧ i.val.testBit qubit) ∨
          (measure_result qs qubit rand_val = 0 ∧ ¬ i.val.testBit qubit)
      · rw [if_pos hc, if_pos hc, measure_norm_factor_eq, absSq_eq_normSq,
            absSq_eq_normSq, Complex.normSq_div, Complex.normSq_ofReal, hsq]
      · rw [if_neg hc, if_neg hc, zero_div]
        simp [absSq]
    have hsum : normSquared ((qstate_measure qs qubit rand_val).2.amplitudes)
        = (∑ i, if (measure_result qs qubit rand_val = 1 ∧ i.val.testBit qubit) ∨
              (measure_result qs qubit rand_val = 0 ∧ ¬ i.val.testBit qubit)
            then absSq (qs.amplitudes i) else 0)
            / measureOutcomeProb qs qubit rand_val := by
      unfold normSquared
      rw [Finset.sum_congr rfl (fun i _ => hterm i), ← Finset.sum_div]
    have hsel : (∑ i, if (measure_result qs qubit rand_val = 1 ∧ i.val.testBit qubit) ∨
          (measure_result qs qubit rand_val = 0 ∧ ¬ i.val.testBit qubit)
        then absSq (qs.amplitudes i) else 0)
        = measureOutcomeProb qs qubit rand_val := by
      rcases hr01 with hr | hr
      · rw [hr]
        unfold measureOutcomeProb
        rw [if_pos hr]
        unfold measure_prob_0
        apply Finset.sum_congr rfl
        intro i _
        by_cases hb : i.val.testBit qubit = true
        · rw [if_pos hb, if_neg]
          rintro (⟨h01, _⟩ | ⟨_, hnb⟩)
          · exact absurd h01 (by norm_num)
          · exact hnb hb
        · rw [if_neg hb, if_pos (Or.inr ⟨rfl, hb⟩)]
      · rw [hr]
        unfold measureOutcomeProb
        rw [if_neg (by rw [hr]; norm_num)]
        unfold measure_prob_1
        apply Finset.sum_congr rfl
        intro i _
        by_cases hb : i.val.testBit qubit = true
        · rw [if_pos hb, if_pos (Or.inl ⟨rfl, hb⟩)]
        · rw [if_neg hb, if_neg]
          rintro (⟨_, hbb⟩ | ⟨h10, _⟩)
          · exact hb hbb
          · exact absurd h10 (by norm_num)
    unfold qstate_norm
    rw [hsum, hsel, div_self (ne_of_gt hp), Real.sqrt_one]

/-- Witness for C6: measuring qubit 0 of the basis state `|0⟩` with draw `1/2`
yields a unit-norm post-measurement state. -/
theorem C6_measure_collapse_witness :
    qstate_norm (qstate_measure (basisState 1 0) 0 (1 / 2)).2 = 1 := by
  have hth := C6_measure_collapse (basisState 1 0) 0 (1 / 2) (by norm_num)
  apply hth.2.2
  have hp0 : measure_prob_0 (basisState 1 0) 0 = 1 := by
    simp [measure_prob_0, basisState, absSq, Fin.sum_univ_succ]
  have hp1 : measure_prob_1 (basisState 1 0) 0 = 0 := by
    simp [measure_prob_1, basisState, absSq, Fin.sum_univ_succ]
  have hres : measure_result (basisState 1 0) 0 (1 / 2) = 0 := by
    unfold measure_result
    rw [hp0, hp1, if_pos (by norm_num)]
  unfold measureOutcomeProb
  rw [if_pos hres, hp0]
  norm_num

/-- C10: `qstate_set_amplitude` and every gate kernel (and `qstate_measure`)
leave the cached `norm` field of `QuantumState` unchanged; `qstate_norm`
always rescans the buffer and never reads the cache (its value is independent
of the cache field); consequently after `qstate_set_amplitude` the cache can
differ from the value `qstate_norm` computes, exhibited concretely on `|0⟩`
after setting the amplitude at index 1 to `1`. -/
theorem C10_norm_cache_frame :
    (∀ (n : ℕ) (qs : QuantumState n) (idx : ℕ) (a : ℂ),
        ((qstate_set_amplitude qs idx a).2).norm = qs.norm) ∧
    (∀ (n : ℕ) (qs : QuantumState n) (t : ℕ),
        ((qstate_apply_x qs t).2).norm = qs.norm) ∧
    (∀ (n : ℕ) (qs : QuantumState n) (t : ℕ),
        ((qstate_apply_y qs t).2).norm = qs.norm) ∧
    (∀ (n : ℕ) (qs : QuantumState n) (t : ℕ),
        ((qstate_apply_z qs t).2).norm = qs.norm) ∧
    (∀ (n : ℕ) (qs : QuantumState n) (t : ℕ),
        ((qstate_apply_h qs t).2).norm = qs.norm) ∧
    (∀ (n : ℕ) (qs : QuantumState n) (t : ℕ),
        ((qstate_apply_s qs t).2).norm = qs.norm) ∧
    (∀ (n : ℕ) (qs : QuantumState n) (t : ℕ),
        ((qstate_apply_t qs t).2).norm = qs.norm) ∧
    (∀ (n : ℕ) (qs : QuantumState n) (t : ℕ) (θ : ℝ),
        ((qstate_apply_rx qs t θ).2).norm = qs.norm) ∧
    (∀ (n : ℕ) (qs : QuantumState n) (t : ℕ) (θ : ℝ),
        ((qstate_apply_ry qs t θ).2).norm = qs.norm) ∧
    (∀ (n : ℕ) (qs : QuantumState n) (t : ℕ) (θ : ℝ),
        ((qstate_apply_rz qs t θ).2).norm = qs.norm) ∧
    (∀ (n : ℕ) (qs : QuantumState n) (c t : ℕ),
        ((qstate_apply_cnot qs c t).2).norm = qs.norm) ∧
    (∀ (n : ℕ) (qs : QuantumState n) (c t : ℕ),
        ((qstate_apply_cz qs c t).2).norm = qs.norm) ∧
    (∀ (n : ℕ) (qs : QuantumState n) (q1 q2 : ℕ),
        ((qstate_apply_swap qs q1 q2).2).norm = qs.norm) ∧
    (∀ (n : ℕ) (qs : QuantumState n) (c1 c2 t : ℕ),
        ((qstate_apply_toffoli qs c1 c2 t).2).norm = qs.norm) ∧
    (∀ (n : ℕ) (qs : QuantumState n) (q : ℕ) (rv : ℝ),
        ((qstate_measure qs q rv).2).norm = qs.norm) ∧
    (∀ (n : ℕ) (amps : Fin (2 ^ n) → ℂ) (x y : ℝ),
        qstate_norm (QuantumState.mk amps x) = qstate_norm (QuantumState.mk amps y)) ∧
    qstate_norm ((qstate_set_amplitude (basisState 1 0) 1 1).2)
      ≠ ((qstate_set_amplitude (basisState 1 0) 1 1).2).norm := by
  refine ⟨?_, ?_, ?_, ?_, ?_, ?_, ?_, ?_, ?_, ?_, ?_, ?_, ?_, ?_, ?_, ?_, ?_⟩
  · intro n qs idx a
    unfold qstate_set_amplitude
    split <;> rfl
  · intro n qs t
    unfold qstate_apply_x
    split <;> rfl
  · intro n qs t
    unfold qstate_apply_y
    split <;> rfl
  · intro n qs t
    unfold qstate_apply_z
    split <;> rfl
  · intro n qs t
    unfold qstate_apply_h
    split <;> rfl
  · intro n qs t
    unfold qstate_apply_s
    split <;> rfl
  · intro n qs t
    unfold qstate_apply_t
    split <;> rfl
  · intro n qs t θ
    unfold qstate_apply_rx
    split <;> rfl
  · intro n qs t θ
    unfold qstate_apply_ry
    split <;> rfl
  · intro n qs t θ
    unfold qstate_apply_rz
    split <;> rfl
  · intro n qs c t
    unfold qstate_apply_cnot
    split <;> first | rfl | (split <;> rfl)
  · intro n qs c t
    unfold qstate_apply_cz
    split <;> rfl
  · intro n qs q1 q2
    unfold qstate_apply_swap
    split <;> first | rfl | (split <;> rfl)
  · intro n qs c1 c2 t
    unfold qstate_apply_toffoli
    split <;> rfl
  · intro n qs q rv
    unfold qstate_measure
    split <;> rfl
  · intro n amps x y
    rfl
  · have hcache : ((qstate_set_amplitude (basisState 1 0) 1 1).2).norm = 1 := rfl
    have hns : normSquared ((qstate_set_amplitude (basisState 1 0) 1 1).2.amplitudes)
        = 2 := by
      simp [qstate_set_amplitude, basisState, normSquared, absSq, Fin.sum_univ_succ,
        Function.update, Fin.ext_iff]
      norm_num
    rw [hcache]
    unfold qstate_norm
    rw [hns]
    intro heq
    rw [Real.sqrt_eq_one] at heq
    norm_num at heq

end MacQ
